import Mathlib

/-!
Verification development for the One-Card-Limit poker repository.

This file gives a shallow embedding, in Lean 4, of the parts of the source
that the specification talks about:

* `core/game_logic.py` — the `HandState` state machine (`deal_cards`,
  `get_valid_actions`, `process_action` and its per-action handlers,
  `_end_hand`), together with `GameConfig` validation
  (`core/state.py` / `core/game_logic.py`, `GameConfig.__post_init__`).
* `strategy/cfr_strategy.py` — the per-node CFR update
  (`CFRStrategy._cfr_recursive` lines 106-116 and
  `CFRStrategy.update_regrets` / `CFRStrategy.get_strategy`).
* `strategy/base_strategy.py` — `Strategy.weighted_random_choice`.
* `strategy/info_set.py` and the `InfoState` of `core/game_logic.py`.
* `core/card.py` — the suited `Card` class.

Python unbounded integers are modelled as `Int`, Python floats as `Rat`
(the claims under study are about which arithmetic updates happen, not
about rounding), Python lists as `List`, Python `dict`s keyed by the legal
actions of one information state as functions `Action → Rat` read only on
those keys, and raised exceptions as an `Option String` error component
(`none` = normal return).  The player index `acting_pos` is modelled as
`Fin 2`: the source initialises it to `0` and only ever updates it by
`(acting_pos + 1) % 2`, which is exactly `Fin 2` addition.
-/

namespace OneCardLimit

/-- `Action` enum of `core/game_logic.py` (and `core/action.py`):
the closed set of five betting actions. -/
inductive Action where
  | check
  | bet
  | call
  | raise
  | fold
deriving DecidableEq, Repr

/-- `HandState` of `core/game_logic.py` (class `HandState.__init__`).
`ante` and `max_raises` are the fields of the `GameConfig` the hand was
created with; `stack_deltas` models the `stacks` attribute (the literal
name `stacks` is a reserved token in this toolchain); `cards = some (c0, c1)` holds the two dealt card values
(`Card.val` ranks) and plays the role of both the `cards` list and the
`cards_dealt` flag, which the source always sets together. -/
structure HandState where
  ante : Int
  max_raises : Int
  cards : Option (Int × Int)
  actions : List Action
  stack_deltas : Int × Int
  acting_pos : Fin 2
  current_bet : Int
  pot : Int
  raises_made : Int
  is_over : Bool
  showdown : Bool
  winner_pos : Option (Fin 2)
deriving DecidableEq, Repr

/-- `HandState.cards_dealt` flag: set exactly when the `cards` list is
populated (`deal_cards` / `from_cards` set both together). -/
def HandState.cards_dealt (s : HandState) : Bool :=
  s.cards.isSome

/-- `HandState.__init__(config, deal_cards=False)`: stacks start at
`-ante` each, the pot at `2*ante`, player 0 acts first. -/
def mkHand (ante max_raises : Int) : HandState :=
  { ante := ante,
    max_raises := max_raises,
    cards := none,
    actions := [],
    stack_deltas := (-ante, -ante),
    acting_pos := 0,
    current_bet := 0,
    pot := 2 * ante,
    raises_made := 0,
    is_over := false,
    showdown := false,
    winner_pos := none }

/-- `HandState.deal_cards`: raises `"Cards already dealt."` when called a
second time, otherwise assigns the two cards popped from the shuffled
deck.  The random draw is passed in as the parameter `c`. -/
def deal_cards (s : HandState) (c : Int × Int) : HandState × Option String :=
  if s.cards_dealt then (s, some "Cards already dealt.")
  else ({ s with cards := some c }, none)

/-- Reading `stacks[p]` for `p` in `{0, 1}`. -/
def getStack (st : Int × Int) (p : Fin 2) : Int :=
  if p = 0 then st.1 else st.2

/-- `self.stack_deltas[p] -= amt`. -/
def debit (st : Int × Int) (p : Fin 2) (amt : Int) : Int × Int :=
  if p = 0 then (st.1 - amt, st.2) else (st.1, st.2 - amt)

/-- `self.stack_deltas[p] += amt`. -/
def credit (st : Int × Int) (p : Fin 2) (amt : Int) : Int × Int :=
  if p = 0 then (st.1 + amt, st.2) else (st.1, st.2 + amt)

/-- The action list computed by `HandState.get_valid_actions` once its
two state guards have passed (lines 170-176): `[CHECK, BET]` with no
outstanding bet, else `[CALL, FOLD]` with `RAISE` appended while
`raises_made < max_raises`. -/
def valid_actions (s : HandState) : List Action :=
  if s.current_bet = 0 then [Action.check, Action.bet]
  else [Action.call, Action.fold] ++
    (if s.raises_made < s.max_raises then [Action.raise] else [])

/-- `HandState.get_valid_actions` (lines 161-176) with its two error
guards: `"Cards not dealt"` before dealing and `"Hand is over"` on a
terminal hand. -/
def get_valid_actions (s : HandState) : Except String (List Action) :=
  if s.cards_dealt = false then Except.error "Cards not dealt"
  else if s.is_over then Except.error "Hand is over"
  else Except.ok (valid_actions s)

/-- `HandState._handle_check`: the hand ends in a showdown exactly when
the in-position player (`acting_pos == 1`) checks. -/
def handle_check (s : HandState) : HandState :=
  if s.acting_pos = 1 then { s with is_over := true, showdown := true }
  else s

/-- `HandState._handle_bet`: `current_bet := ante`, the pot grows by it
and the acting player pays it. -/
def handle_bet (s : HandState) : HandState :=
  let cb := s.ante
  { s with current_bet := cb,
           pot := s.pot + cb,
           stack_deltas := debit s.stack_deltas s.acting_pos cb }

/-- `HandState._handle_call`: the acting player matches `current_bet`
and the hand ends in a showdown. -/
def handle_call (s : HandState) : HandState :=
  { s with pot := s.pot + s.current_bet,
           stack_deltas := debit s.stack_deltas s.acting_pos s.current_bet,
           is_over := true,
           showdown := true }

/-- `HandState._handle_raise` (lines 242-250), kept exactly as written:
`new_bet = current_bet * 2`, then the assignment
`current_bet = new_bet - current_bet`, then the pot and the acting
player are debited by `new_bet` and `raises_made` is incremented.  The
guard mirrors the defensive re-check of the raise budget. -/
def handle_raise (s : HandState) : HandState × Option String :=
  if s.raises_made < s.max_raises then
    let new_bet := s.current_bet * 2
    ({ s with current_bet := new_bet - s.current_bet,
              pot := s.pot + new_bet,
              stack_deltas := debit s.stack_deltas s.acting_pos new_bet,
              raises_made := s.raises_made + 1 }, none)
  else (s, some "No raises left, cannot raise")

/-- `HandState._handle_fold`: the other player wins immediately, with no
showdown. -/
def handle_fold (s : HandState) : HandState :=
  { s with winner_pos := some (s.acting_pos + 1),
           is_over := true }

/-- The pot award line of `HandState._end_hand`:
`self.stack_deltas[self.winner_pos] += self.pot`. -/
def award_pot (s : HandState) (w : Fin 2) : HandState :=
  { s with stack_deltas := credit s.stack_deltas w s.pot }

/-- `HandState._end_hand` (lines 257-265): on a showdown the winner is
the strictly higher card (`0 if cards[0] > cards[1] else 1`), then the
whole pot is credited to the winner.  Accessing the cards of an undealt
hand or indexing the stacks with winner `None` would raise in Python and
is modelled by the corresponding error returns. -/
def end_hand (s : HandState) : HandState × Option String :=
  if s.is_over = false then (s, some "Hand is not over yet")
  else if s.showdown then
    match s.cards with
    | none => (s, some "IndexError")
    | some (c0, c1) =>
        let w : Fin 2 := if c0 > c1 then 0 else 1
        (award_pot { s with winner_pos := some w } w, none)
  else
    match s.winner_pos with
    | some w => (award_pot s w, none)
    | none => (s, some "TypeError")

/-- `HandState.process_action` (lines 190-221): the three error guards
in source order (`"Hand is already over"`, `"Cards have not been dealt
yet"`, then membership in `get_valid_actions`, whose guards cannot fire
any more at that point), then the action is appended to the history, the
per-action handler runs, the turn passes, and a finished hand is settled
by `_end_hand`.  The source formats the offending action into its
`"Invalid action ..."` message; the constant prefix is kept here. -/
def process_action (s : HandState) (a : Action) : HandState × Option String :=
  if s.is_over then (s, some "Hand is already over")
  else if s.cards_dealt = false then (s, some "Cards have not been dealt yet")
  else if a ∉ valid_actions s then (s, some "Invalid action")
  else
    let s1 := { s with actions := s.actions ++ [a] }
    let step : HandState × Option String :=
      match a with
      | Action.check => (handle_check s1, none)
      | Action.bet => (handle_bet s1, none)
      | Action.call => (handle_call s1, none)
      | Action.raise => handle_raise s1
      | Action.fold => (handle_fold s1, none)
    match step with
    | (s2, some e) => (s2, some e)
    | (s2, none) =>
        let s3 := { s2 with acting_pos := s2.acting_pos + 1 }
        if s3.is_over then end_hand s3 else (s3, none)

/-- `GameConfig` of `core/state.py` / `core/game_logic.py`: immutable
rule parameters. -/
structure GameConfig where
  deck_size : Int
  max_raises : Int
  ante : Int
deriving DecidableEq, Repr

/-- `GameConfig.__post_init__` (`core/state.py` lines 97-102,
`core/game_logic.py` lines 68-73): validates `3 <= deck_size <= 13` and
`0 <= max_raises < 3`; a failed check raises inside the constructor so
no object is produced.  Note that the source contains no check on
`ante`. -/
def mkGameConfig (deck_size max_raises ante : Int) : Except String GameConfig :=
  if ¬(3 ≤ deck_size ∧ deck_size ≤ 13) then
    Except.error "Deck size must be between 3 and 13"
  else if ¬(0 ≤ max_raises ∧ max_raises < 3) then
    Except.error "Max raises must be between 0 and 2"
  else Except.ok ⟨deck_size, max_raises, ante⟩

/-- The hand states reachable in the source: a hand is freshly created
from a config (`HandState.__init__`), cards are dealt once, and then
legal actions are applied through `process_action`; a step counts only
when `process_action` returns normally (no exception). -/
inductive Reachable : HandState → Prop where
  | deal (ante max_raises : Int) (c : Int × Int) :
      Reachable (deal_cards (mkHand ante max_raises) c).1
  | step {s s' : HandState} (a : Action) :
      Reachable s → process_action s a = (s', none) → Reachable s'

/-- `InfoState` of `core/game_logic.py` (lines 97-128); the card is
represented by its rank value `Card.val`, which is what its `__eq__`
compares. -/
structure GLInfoState where
  pos : Int
  card : Int
  actions : List Action
  valid_actions : List Action
  result : Option Int
deriving DecidableEq, Repr

/-- `InfoState.__eq__` of `core/game_logic.py` (lines 121-125): equality
by card and action history only; `pos`, `valid_actions` and `result` are
not compared. -/
def GLInfoState.pyEq (a b : GLInfoState) : Bool :=
  a.card == b.card && a.actions == b.actions

/-- `InfoState` of `strategy/info_set.py` (lines 14-41): a `@dataclass`
with fields `pos`, `card`, `actions_taken` (position-tagged actions) and
`result`.  This is the class the CFR solver keys its policy, regret and
strategy-sum dictionaries by. -/
structure SInfoState where
  pos : Int
  card : Int
  actions_taken : List (Int × Action)
  result : Option Int
deriving DecidableEq, Repr

/-- Equality of `strategy/info_set.py`'s `InfoState`: the class defines
`__hash__` but no `__eq__`, so the bare `@dataclass` decorator generates
`__eq__` comparing the tuple of ALL fields
`(pos, card, actions_taken, result)` (cards comparing by `val`). -/
def SInfoState.pyEq (a b : SInfoState) : Bool :=
  a.pos == b.pos && a.card == b.card && a.actions_taken == b.actions_taken
    && a.result == b.result

/-- The rank alphabet of `core/card.py`. -/
def card_ranks : List String :=
  ["2", "3", "4", "5", "6", "7", "8", "9", "T", "J", "Q", "K", "A"]

/-- `Card` of `core/card.py`: the suited card class, with a string rank,
an optional suit and the integer rank value. -/
structure SuitedCard where
  rank : String
  suit : Option String
  val : Int
deriving DecidableEq, Repr

/-- `Card.__init__` of `core/card.py` called with an integer rank index
(in range) and an optional suit: `rank = card_ranks[rank]` and
`val = card_ranks.index(rank)`. -/
def mkSuitedCard (rankIdx : Nat) (suit : Option String) : SuitedCard :=
  ⟨card_ranks.getD rankIdx "", suit, (rankIdx : Int)⟩

/-- `Card.__eq__` of `core/card.py` (lines 52-53): rank value only; the
suit is ignored. -/
def SuitedCard.pyEq (a b : SuitedCard) : Bool :=
  a.val == b.val

/-- The tuple `Card.__hash__` of `core/card.py` (lines 55-56) feeds to
Python's `hash`: `(self.val, self.rank, self.suit)`.  Equal tuples are
the only guarantee of equal hashes, and the suit is part of the tuple. -/
def SuitedCard.hashKey (c : SuitedCard) : Int × String × Option String :=
  (c.val, c.rank, c.suit)

/-- The per-action tables of one `InfoState` inside `CFRStrategy`
(`regret_sum[i]` and `strategy_sum[i]`); `none` models the info state
being absent from the corresponding dict.  A table is a function read
only on the legal-action keys of that info state. -/
structure CFRNodeTables where
  regret_sum : Option (Action → Rat)
  strategy_sum : Option (Action → Rat)

/-- The regret table read with the zero default that
`CFRStrategy.update_regrets` initialises absent entries to. -/
def CFRNodeTables.regretD (t : CFRNodeTables) : Action → Rat :=
  t.regret_sum.getD (fun _ => 0)

/-- The strategy-sum table read with the same zero default. -/
def CFRNodeTables.stratD (t : CFRNodeTables) : Action → Rat :=
  t.strategy_sum.getD (fun _ => 0)

/-- `CFRStrategy.get_strategy` (lines 191-219) at one info state whose
policy entry has the key list `acts`: with no regret entry the stored
policy is returned; otherwise regret matching over `max(0, regret)`,
normalised when the positive mass is nonzero, and the uniform
distribution over the policy keys otherwise. -/
def get_strategy (policy : Action → Rat) (acts : List Action)
    (t : CFRNodeTables) : Action → Rat :=
  match t.regret_sum with
  | none => policy
  | some rs =>
      let pos : Action → Rat := fun a => max 0 (rs a)
      let normalizing_sum := (acts.map pos).sum
      if 0 < normalizing_sum then fun a => pos a / normalizing_sum
      else fun _ => 1 / (acts.length : Rat)

/-- `CFRStrategy.update_regrets` (lines 160-189) at one info state:
missing tables are initialised to zero over the policy keys, `regret` is
added to the entry of `action`, and then one whole regret-matched
strategy — recomputed by `get_strategy` from the just-updated regrets —
is added, key by key, to the strategy-sum table. -/
def update_regrets (policy : Action → Rat) (acts : List Action)
    (t : CFRNodeTables) (action : Action) (regret : Rat) : CFRNodeTables :=
  let rs := t.regretD
  let ss := t.stratD
  let rs1 : Action → Rat := fun a => if a = action then rs a + regret else rs a
  let strategy := get_strategy policy acts ⟨some rs1, some ss⟩
  let ss1 : Action → Rat := fun a => if a ∈ acts then ss a + strategy a else ss a
  ⟨some rs1, some ss1⟩

/-- Lines 106-116 of `CFRStrategy._cfr_recursive`: the counterfactual
reach probability is the OTHER player's reach (`ip_reach` for player 0,
`op_reach` for player 1), and `update_regrets` is invoked once per
evaluated action with regret `reach_prob * (action_value - node_value)`,
iterating over the legal actions of the node in order. -/
def regret_update_phase (player : Fin 2) (op_reach ip_reach : Rat)
    (policy : Action → Rat) (acts : List Action)
    (action_values : Action → Rat) (node_value : Rat)
    (t : CFRNodeTables) : CFRNodeTables :=
  let reach_prob := if player = 0 then ip_reach else op_reach
  acts.foldl
    (fun t a =>
      update_regrets policy acts t a (reach_prob * (action_values a - node_value)))
    t

/-- The scanning loop of `Strategy.weighted_random_choice`
(`strategy/base_strategy.py` lines 194-198): accumulate the
probabilities in enumeration order and return the first action whose
cumulative sum strictly exceeds the draw. -/
def wrc_loop (rnd : Rat) : List (Action × Rat) → Rat → Option Action
  | [], _ => none
  | (action, prob) :: rest, cumulative =>
      let cumulative := cumulative + prob
      if rnd < cumulative then some action else wrc_loop rnd rest cumulative

/-- `Strategy.weighted_random_choice` (lines 191-199): the loop above,
then the fallback `list(action_probs.keys())[-1]` returning the last
enumerated action (`none` models the `IndexError` on an empty mapping).
The dict is modelled as its ordered item list and the `random.random()`
draw is the parameter `rnd`. -/
def weighted_random_choice (action_probs : List (Action × Rat))
    (rnd : Rat) : Option Action :=
  match wrc_loop rnd action_probs 0 with
  | some a => some a
  | none => (action_probs.map Prod.fst).getLast?

/-- A freshly dealt hand: `ante = 1`, `max_raises = 2`, player 0 holding
the higher card. -/
def w0 : HandState := (deal_cards (mkHand 1 2) (2, 1)).1

/-- `w0` after a first CHECK by player 0. -/
def w1 : HandState := (process_action w0 Action.check).1

/-- `w1` after the second CHECK: a terminal showdown hand. -/
def w2 : HandState := (process_action w1 Action.check).1

/-- `w0` after a BET by player 0: a dealt, open hand facing a bet of 1
with no raise made yet. -/
def c1state : HandState := (process_action w0 Action.bet).1

/-! ### Helper lemmas about the stack pair -/

theorem debit_sum (st : Int × Int) (p : Fin 2) (amt : Int) :
    (debit st p amt).1 + (debit st p amt).2 = st.1 + st.2 - amt := by
  unfold debit
  split <;> ring

theorem credit_sum (st : Int × Int) (p : Fin 2) (amt : Int) :
    (credit st p amt).1 + (credit st p amt).2 = st.1 + st.2 + amt := by
  unfold credit
  split <;> ring

theorem getStack_debit (st : Int × Int) (p : Fin 2) (amt : Int) :
    getStack (debit st p amt) p = getStack st p - amt := by
  unfold getStack debit
  split <;> simp

theorem getStack_credit (st : Int × Int) (p : Fin 2) (amt : Int) :
    getStack (credit st p amt) p = getStack st p + amt := by
  unfold getStack credit
  split <;> simp

/-! ### C1: the RAISE transition -/

/-- C1, counterexample.  `c1state` is dealt, open, faces the bet
`current_bet = 1` and has `raises_made = 0 < 2 = max_raises`, so the
claim applies to it; applying RAISE succeeds but leaves `current_bet`
at `1` instead of setting it to `new_bet = current_bet * 2 = 2`:
`HandState._handle_raise` assigns `new_bet - current_bet`, which always
equals the old `current_bet`. -/
theorem claim1_counterexample :
    c1state.cards_dealt = true ∧ c1state.is_over = false ∧
    c1state.current_bet = 1 ∧ c1state.raises_made < c1state.max_raises ∧
    (process_action c1state Action.raise).2 = none ∧
    (process_action c1state Action.raise).1.current_bet = 1 ∧
    c1state.current_bet * 2 = 2 ∧ (1 : Int) ≠ 2 := by decide

/-- C1, amended: on a dealt, open hand with an outstanding bet and
`raises_made < max_raises`, RAISE computes `new_bet = current_bet * 2`,
debits the pot and the acting player by `new_bet` (the doubled bet, not
the increment), LEAVES `current_bet` unchanged (the source assigns
`new_bet - current_bet`), increments `raises_made`, and passes control
with the hand still open. -/
theorem claim1_amended (s : HandState) (h1 : s.cards_dealt = true)
    (h2 : s.is_over = false) (h3 : s.current_bet ≠ 0)
    (h4 : s.raises_made < s.max_raises) :
    (process_action s Action.raise).2 = none ∧
    (process_action s Action.raise).1.pot = s.pot + s.current_bet * 2 ∧
    getStack (process_action s Action.raise).1.stack_deltas s.acting_pos =
      getStack s.stack_deltas s.acting_pos - s.current_bet * 2 ∧
    (process_action s Action.raise).1.current_bet = s.current_bet ∧
    (process_action s Action.raise).1.raises_made = s.raises_made + 1 ∧
    (process_action s Action.raise).1.is_over = false ∧
    (process_action s Action.raise).1.acting_pos = s.acting_pos + 1 ∧
    (process_action s Action.raise).1.actions = s.actions ++ [Action.raise] := by
  have hv : Action.raise ∈ valid_actions s := by
    simp [valid_actions, h3, h4]
  simp only [process_action, h2, h1, hv, handle_raise, h4]
  simp [getStack_debit]
  ring

/-- C1, witness: the amended statement evaluated on the concrete state
`c1state`. -/
theorem claim1_witness :
    (process_action c1state Action.raise).2 = none ∧
    (process_action c1state Action.raise).1.pot = c1state.pot + c1state.current_bet * 2 ∧
    getStack (process_action c1state Action.raise).1.stack_deltas c1state.acting_pos =
      getStack c1state.stack_deltas c1state.acting_pos - c1state.current_bet * 2 ∧
    (process_action c1state Action.raise).1.current_bet = c1state.current_bet ∧
    (process_action c1state Action.raise).1.raises_made = c1state.raises_made + 1 ∧
    (process_action c1state Action.raise).1.is_over = false ∧
    (process_action c1state Action.raise).1.acting_pos = c1state.acting_pos + 1 ∧
    (process_action c1state Action.raise).1.actions = c1state.actions ++ [Action.raise] :=
  claim1_amended c1state (by decide) (by decide) (by decide) (by decide)

/-! ### C6: GameConfig validation -/

/-- C6, counterexample: `GameConfig(deck_size=4, max_raises=2, ante=0)`
constructs successfully even though `ante = 0 < 1`; the source
`__post_init__` never checks `ante`. -/
theorem claim6_counterexample :
    mkGameConfig 4 2 0 = Except.ok ⟨4, 2, 0⟩ ∧ (0 : Int) < 1 := by
  constructor
  · rfl
  · decide

/-- C6, amended: construction fails exactly when `deck_size` is outside
`[3, 13]` or `max_raises` is outside `[0, 2]`; `ante` is not validated
at all.  On success the produced config carries exactly the given
values, and on failure no config is produced. -/
theorem claim6_amended (d m a : Int) :
    ((∃ cfg, mkGameConfig d m a = Except.ok cfg) ↔
      (3 ≤ d ∧ d ≤ 13 ∧ 0 ≤ m ∧ m ≤ 2)) ∧
    (∀ cfg, mkGameConfig d m a = Except.ok cfg →
      cfg.deck_size = d ∧ cfg.max_raises = m ∧ cfg.ante = a) := by
  unfold mkGameConfig
  constructor
  · constructor
    · rintro ⟨cfg, hcfg⟩
      by_cases h1 : 3 ≤ d ∧ d ≤ 13
      · by_cases h2 : 0 ≤ m ∧ m < 3
        · exact ⟨h1.1, h1.2, h2.1, by omega⟩
        · simp [h1, h2] at hcfg
      · simp [h1] at hcfg
    · intro hrange
      have h1 : (3 ≤ d ∧ d ≤ 13) := ⟨hrange.1, hrange.2.1⟩
      have h2 : (0 ≤ m ∧ m < 3) := ⟨hrange.2.2.1, by omega⟩
      simp [h1, h2]
  · intro cfg hcfg
    split at hcfg
    · simp at hcfg
    · split at hcfg
      · simp at hcfg
      · simp only [Except.ok.injEq] at hcfg
        subst hcfg
        exact ⟨rfl, rfl, rfl⟩

/-- C6, witness: the amended statement at the in-range arguments
`(4, 2, 1)`. -/
theorem claim6_witness :
    ((∃ cfg, mkGameConfig 4 2 1 = Except.ok cfg) ↔
      ((3 : Int) ≤ 4 ∧ (4 : Int) ≤ 13 ∧ (0 : Int) ≤ 2 ∧ (2 : Int) ≤ 2)) ∧
    (∀ cfg, mkGameConfig 4 2 1 = Except.ok cfg →
      cfg.deck_size = 4 ∧ cfg.max_raises = 2 ∧ cfg.ante = 1) :=
  claim6_amended 4 2 1

/-! ### C7: InfoState equality -/

/-- A non-terminal view of a hand in `strategy/info_set.py` terms. -/
def i7a : SInfoState := ⟨0, 5, [], none⟩

/-- The same position, card and action history, but with a terminal
`result` recorded. -/
def i7b : SInfoState := ⟨0, 5, [], some 2⟩

/-- C7, counterexample: for the `InfoState` of `strategy/info_set.py` —
the class the CFR solver keys its policy by — equality is the
`@dataclass`-generated comparison of ALL fields, so two info states with
identical card and action sequence but different `result` are NOT
equal, contradicting the claimed card-plus-actions identity. -/
theorem claim7_counterexample :
    i7a.card = i7b.card ∧ i7a.actions_taken = i7b.actions_taken ∧
    i7a.pos = i7b.pos ∧ SInfoState.pyEq i7a i7b = false := by decide

/-- C7, amended: the `InfoState` of `core/game_logic.py` is equal
exactly when card and action sequence agree (position and result do not
participate), but the `InfoState` of `strategy/info_set.py` used for
policy lookup defines no `__eq__` of its own, so its dataclass equality
compares position, card, action history AND the optional terminal
result. -/
theorem claim7_amended :
    (∀ a b : GLInfoState,
      GLInfoState.pyEq a b = true ↔ (a.card = b.card ∧ a.actions = b.actions)) ∧
    (∀ a b : SInfoState,
      SInfoState.pyEq a b = true ↔
        (a.pos = b.pos ∧ a.card = b.card ∧
         a.actions_taken = b.actions_taken ∧ a.result = b.result)) := by
  constructor
  · intro a b
    simp [GLInfoState.pyEq]
  · intro a b
    simp [SInfoState.pyEq, and_assoc]

/-! ### C10: suited Card equality versus hash -/

/-- The two of diamonds, `Card("2", "d")` of `core/card.py`. -/
def card2d : SuitedCard := mkSuitedCard 0 (some "d")

/-- The two of hearts, `Card("2", "h")`. -/
def card2h : SuitedCard := mkSuitedCard 0 (some "h")

/-- C10, counterexample: `Card("2","d") == Card("2","h")` holds (equality
compares `val` only) but the tuples fed to `hash` differ in the suit
component, so equal hashes are not guaranteed — and CPython indeed
hashes the two distinct tuples differently, breaking dict/set
interchangeability of equal suited cards. -/
theorem claim10_counterexample :
    SuitedCard.pyEq card2d card2h = true ∧
    SuitedCard.hashKey card2d ≠ SuitedCard.hashKey card2h := by decide

/-- C10, amended: for suited cards that agree on the suit (in
particular the suitless cards a `Deck` produces), equality does imply an
identical hash input and hence an equal hash; with differing suits the
implication fails, as the counterexample shows. -/
theorem claim10_amended (i j : Nat) (s : Option String)
    (h : SuitedCard.pyEq (mkSuitedCard i s) (mkSuitedCard j s) = true) :
    SuitedCard.hashKey (mkSuitedCard i s) = SuitedCard.hashKey (mkSuitedCard j s) := by
  simp only [SuitedCard.pyEq, mkSuitedCard, beq_iff_eq] at h
  have hij : i = j := by exact_mod_cast h
  subst hij
  rfl

/-- C10, witness: the amended statement at two copies of the two of
diamonds. -/
theorem claim10_witness :
    SuitedCard.hashKey (mkSuitedCard 0 (some "d")) =
      SuitedCard.hashKey (mkSuitedCard 0 (some "d")) :=
  claim10_amended 0 0 (some "d") (by decide)

/-! ### C9: weighted random choice totality -/

theorem wrc_loop_mem (rnd : Rat) :
    ∀ (l : List (Action × Rat)) (c : Rat) (a : Action),
      wrc_loop rnd l c = some a → a ∈ l.map Prod.fst := by
  intro l
  induction l with
  | nil => intro c a h; simp [wrc_loop] at h
  | cons hd tl ih =>
      intro c a h
      obtain ⟨hda, hdp⟩ := hd
      simp only [wrc_loop] at h
      by_cases hlt : rnd < c + hdp
      · simp [hlt] at h
        simp [h]
      · simp [hlt] at h
        simp [ih _ _ h]

/-- C9: on a non-empty action-probability mapping,
`weighted_random_choice` always returns an action, and that action is
one of the mapping keys — either the first key whose cumulative
probability exceeds the draw, or the final fallback
`list(action_probs.keys())[-1]`. -/
theorem claim9_weighted_choice (action_probs : List (Action × Rat)) (rnd : Rat)
    (h : action_probs ≠ []) :
    (weighted_random_choice action_probs rnd).isSome = true ∧
    (weighted_random_choice action_probs rnd).getD Action.fold ∈
      action_probs.map Prod.fst := by
  unfold weighted_random_choice
  cases hw : wrc_loop rnd action_probs 0 with
  | some a =>
      simp only [Option.isSome_some, Option.getD_some, true_and]
      exact wrc_loop_mem rnd action_probs 0 a hw
  | none =>
      have hne : action_probs.map Prod.fst ≠ [] := by
        simpa using h
      rw [List.getLast?_eq_getLast_of_ne_nil hne]
      simp only [Option.isSome_some, Option.getD_some, true_and]
      exact List.getLast_mem hne

/-- C9, witness: a concrete two-action uniform mapping and the draw
`1/3`. -/
theorem claim9_witness :
    (weighted_random_choice [(Action.check, 1/2), (Action.bet, 1/2)] (1/3)).isSome = true ∧
    (weighted_random_choice [(Action.check, 1/2), (Action.bet, 1/2)] (1/3)).getD Action.fold ∈
      ([(Action.check, 1/2), (Action.bet, 1/2)] : List (Action × Rat)).map Prod.fst :=
  claim9_weighted_choice [(Action.check, 1/2), (Action.bet, 1/2)] (1/3) (by decide)

/-! ### C8: fail-fast error behaviour -/

/-- C8: `process_action` fails with a distinct error for each of the
three failure cases — hand already terminal, cards not dealt, action not
in the legal set — and in each case returns the state unchanged (the
source raises before mutating anything); `deal_cards` fails on a second
deal, also leaving the state unchanged.  In particular a terminal
`HandState` accepts no action at all. -/
theorem claim8_failfast (s : HandState) (a : Action) (c : Int × Int) :
    (s.is_over = true → process_action s a = (s, some "Hand is already over")) ∧
    (s.is_over = false → s.cards_dealt = false →
      process_action s a = (s, some "Cards have not been dealt yet")) ∧
    (s.is_over = false → s.cards_dealt = true → a ∉ valid_actions s →
      process_action s a = (s, some "Invalid action")) ∧
    (s.cards_dealt = true → deal_cards s c = (s, some "Cards already dealt.")) ∧
    ("Hand is already over" ≠ "Cards have not been dealt yet" ∧
     "Hand is already over" ≠ "Invalid action" ∧
     "Cards have not been dealt yet" ≠ "Invalid action") := by
  refine ⟨?_, ?_, ?_, ?_, by decide⟩
  · intro hover
    simp [process_action, hover]
  · intro hover hdealt
    simp [process_action, hover, hdealt]
  · intro hover hdealt hmem
    simp [process_action, hover, hdealt, hmem]
  · intro hdealt
    simp [deal_cards, hdealt]

/-- C8, witness: each failure case exercised on a concrete state — the
terminal `w2`, an undealt fresh hand, the dealt open `w0` with the
illegal CALL, and a second deal on `w0`. -/
theorem claim8_witness :
    process_action w2 Action.check = (w2, some "Hand is already over") ∧
    process_action (mkHand 1 2) Action.check =
      (mkHand 1 2, some "Cards have not been dealt yet") ∧
    process_action w0 Action.call = (w0, some "Invalid action") ∧
    deal_cards w0 (3, 1) = (w0, some "Cards already dealt.") :=
  ⟨(claim8_failfast w2 Action.check (3, 1)).1 (by decide),
   (claim8_failfast (mkHand 1 2) Action.check (3, 1)).2.1 (by decide) (by decide),
   (claim8_failfast w0 Action.call (3, 1)).2.2.1 (by decide) (by decide) (by decide),
   (claim8_failfast w0 Action.check (3, 1)).2.2.2.1 (by decide)⟩

/-! ### C3: the legal-action sets and their applicability -/

/-- C3: on a dealt, non-terminal hand `get_valid_actions` succeeds and
returns exactly `[CHECK, BET]` when no bet is outstanding, and otherwise
exactly `[CALL, FOLD]` plus `RAISE` precisely when
`raises_made < max_raises`; the list is never empty; and applying any
returned action through `process_action` raises no error. -/
theorem claim3_valid_actions (s : HandState) (h1 : s.cards_dealt = true)
    (h2 : s.is_over = false) :
    get_valid_actions s = Except.ok (valid_actions s) ∧
    (s.current_bet = 0 → valid_actions s = [Action.check, Action.bet]) ∧
    (s.current_bet ≠ 0 → s.raises_made < s.max_raises →
      valid_actions s = [Action.call, Action.fold, Action.raise]) ∧
    (s.current_bet ≠ 0 → ¬s.raises_made < s.max_raises →
      valid_actions s = [Action.call, Action.fold]) ∧
    valid_actions s ≠ [] ∧
    (∀ a ∈ valid_actions s, (process_action s a).2 = none) := by
  obtain ⟨⟨c0, c1⟩, hc⟩ : ∃ p, s.cards = some p := by
    cases hcards : s.cards with
    | none => simp [HandState.cards_dealt, hcards] at h1
    | some p => exact ⟨p, rfl⟩
  refine ⟨by simp [get_valid_actions, h1, h2], ?_, ?_, ?_, ?_, ?_⟩
  · intro hcb
    simp [valid_actions, hcb]
  · intro hcb hr
    simp [valid_actions, hcb, hr]
  · intro hcb hr
    simp [valid_actions, hcb, hr]
  · unfold valid_actions
    split <;> simp
  · intro a ha
    simp only [process_action, h2, h1, ha]
    simp only [Bool.false_eq_true, if_false, Bool.true_eq_false, not_true_eq_false,
      not_false_eq_true, if_true]
    by_cases hcb : s.current_bet = 0
    · have hmem : a = Action.check ∨ a = Action.bet := by
        simpa [valid_actions, hcb] using ha
      rcases hmem with rfl | rfl
      · by_cases hap : s.acting_pos = 1
        · simp [handle_check, hap, end_hand, hc]
        · simp [handle_check, hap, h2]
      · simp [handle_bet, h2]
    · have hmem : a = Action.call ∨ a = Action.fold ∨
          (a = Action.raise ∧ s.raises_made < s.max_raises) := by
        by_cases hr : s.raises_made < s.max_raises
        · simpa [valid_actions, hcb, hr, or_assoc] using ha
        · have := ha
          simp [valid_actions, hcb, hr] at this
          rcases this with rfl | rfl
          · exact Or.inl rfl
          · exact Or.inr (Or.inl rfl)
      rcases hmem with rfl | rfl | ⟨rfl, hr⟩
      · simp [handle_call, end_hand, hc]
      · cases hsd : s.showdown with
        | true => simp [handle_fold, end_hand, hsd, hc]
        | false => simp [handle_fold, end_hand, hsd]
      · simp [handle_raise, hr, h2]

/-- C3, witness: the statement evaluated on the dealt, open hand `w0`
(no outstanding bet) — in particular both CHECK and BET apply without
error. -/
theorem claim3_witness :
    get_valid_actions w0 = Except.ok (valid_actions w0) ∧
    (w0.current_bet = 0 → valid_actions w0 = [Action.check, Action.bet]) ∧
    (w0.current_bet ≠ 0 → w0.raises_made < w0.max_raises →
      valid_actions w0 = [Action.call, Action.fold, Action.raise]) ∧
    (w0.current_bet ≠ 0 → ¬w0.raises_made < w0.max_raises →
      valid_actions w0 = [Action.call, Action.fold]) ∧
    valid_actions w0 ≠ [] ∧
    (∀ a ∈ valid_actions w0, (process_action w0 a).2 = none) :=
  claim3_valid_actions w0 (by decide) (by decide)

/-! ### The reachable-state invariant (for C2 and C4) -/

theorem fin2_cast_succ (n : Nat) : ((n + 1 : Nat) : Fin 2) = (n : Fin 2) + 1 := by
  push_cast
  ring

/-- Any successful run of `_end_hand` credits the whole pot to some
winner and changes nothing else. -/
theorem end_hand_spec (s s' : HandState) (h : end_hand s = (s', none)) :
    s'.stack_deltas.1 + s'.stack_deltas.2 =
      s.stack_deltas.1 + s.stack_deltas.2 + s.pot ∧
    s'.cards = s.cards ∧ s'.is_over = s.is_over ∧ s'.ante = s.ante ∧
    s'.actions = s.actions ∧ s'.current_bet = s.current_bet ∧
    s'.showdown = s.showdown ∧ s'.acting_pos = s.acting_pos := by
  unfold end_hand at h
  split at h
  · simp at h
  · split at h
    · split at h
      · simp at h
      · simp only [Prod.mk.injEq, and_true] at h
        subst h
        exact ⟨credit_sum _ _ _, rfl, rfl, rfl, rfl, rfl, rfl, rfl⟩
    · split at h
      · simp only [Prod.mk.injEq, and_true] at h
        subst h
        exact ⟨credit_sum _ _ _, rfl, rfl, rfl, rfl, rfl, rfl, rfl⟩
      · simp at h

/-- The invariant maintained by every reachable hand state: cards are
dealt; while the hand is open the acting position is the parity of the
action count, a zero `current_bet` (under a positive ante) can only
occur on the histories `[]` or `[CHECK]`, and the pot is the negative
sum of the stack deltas; once the hand is over the stack deltas sum to
zero. -/
def Inv (s : HandState) : Prop :=
  s.cards_dealt = true ∧
  (s.is_over = false → s.acting_pos = (s.actions.length : Fin 2)) ∧
  (s.is_over = false → 1 ≤ s.ante → s.current_bet = 0 →
    s.actions = [] ∨ s.actions = [Action.check]) ∧
  (s.is_over = false → s.pot = -(s.stack_deltas.1 + s.stack_deltas.2)) ∧
  (s.is_over = true → s.stack_deltas.1 + s.stack_deltas.2 = 0)

theorem reachable_inv {s : HandState} (h : Reachable s) : Inv s := by
  induction h with
  | deal ante mr c =>
      refine ⟨by simp [deal_cards, mkHand, HandState.cards_dealt], ?_, ?_, ?_, ?_⟩ <;>
        simp [deal_cards, mkHand, HandState.cards_dealt]
      ring
  | @step s s' a hr hstep ih =>
      obtain ⟨hdealt, hparity, hcb0, hpot, hsum⟩ := ih
      obtain ⟨⟨c0, c1⟩, hc⟩ : ∃ p, s.cards = some p := by
        cases hcards : s.cards with
        | none => simp [HandState.cards_dealt, hcards] at hdealt
        | some p => exact ⟨p, rfl⟩
      cases hov : s.is_over with
      | true => simp [process_action, hov] at hstep
      | false =>
        by_cases hmem : a ∈ valid_actions s
        · simp only [process_action, hov, hdealt, hmem, Bool.false_eq_true, if_false,
            Bool.true_eq_false, not_true_eq_false, not_false_eq_true, if_true] at hstep
          cases a with
          | check =>
              by_cases hap : s.acting_pos = 1
              · simp only [handle_check, hap, if_true] at hstep
                obtain ⟨hsum', hcards', hover', hante', hacts', hcb', hsd', hact'⟩ :=
                  end_hand_spec _ _ hstep
                refine ⟨?_, ?_, ?_, ?_, ?_⟩
                · simp [HandState.cards_dealt, hcards', hc]
                · intro hfalse
                  rw [hover'] at hfalse
                  simp at hfalse
                · intro hfalse _ _
                  rw [hover'] at hfalse
                  simp at hfalse
                · intro hfalse
                  rw [hover'] at hfalse
                  simp at hfalse
                · intro _
                  rw [hsum']
                  have hp := hpot hov
                  show s.stack_deltas.1 + s.stack_deltas.2 + s.pot = 0
                  omega
              · simp only [handle_check, hap, if_false] at hstep
                simp only [hov, Bool.false_eq_true, if_false, Prod.mk.injEq, and_true] at hstep
                subst hstep
                refine ⟨by simp [HandState.cards_dealt, hc], ?_, ?_, ?_, ?_⟩
                · intro _
                  show s.acting_pos + 1 = ((s.actions ++ [Action.check]).length : Fin 2)
                  rw [List.length_append, List.length_singleton, fin2_cast_succ, ← hparity hov]
                · intro _ hante hcb
                  rcases hcb0 hov hante hcb with h0 | h0
                  · right
                    show s.actions ++ [Action.check] = [Action.check]
                    simp [h0]
                  · exfalso
                    apply hap
                    rw [hparity hov, h0]
                    rfl
                · intro _
                  exact hpot hov
                · intro hfalse
                  exact absurd hfalse (by simp [hov])
          | bet =>
              simp only [handle_bet] at hstep
              simp only [hov, Bool.false_eq_true, if_false, Prod.mk.injEq, and_true] at hstep
              subst hstep
              refine ⟨by simp [HandState.cards_dealt, hc], ?_, ?_, ?_, ?_⟩
              · intro _
                show s.acting_pos + 1 = ((s.actions ++ [Action.bet]).length : Fin 2)
                rw [List.length_append, List.length_singleton, fin2_cast_succ, ← hparity hov]
              · intro _ hante hcb
                exfalso
                have hcb2 : s.ante = 0 := hcb
                have hante2 : (1 : Int) ≤ s.ante := hante
                omega
              · intro _
                have hp := hpot hov
                have hd := debit_sum s.stack_deltas s.acting_pos s.ante
                show s.pot + s.ante =
                  -((debit s.stack_deltas s.acting_pos s.ante).1 +
                    (debit s.stack_deltas s.acting_pos s.ante).2)
                omega
              · intro hfalse
                exact absurd hfalse (by simp [hov])
          | call =>
              simp only [handle_call, if_true] at hstep
              obtain ⟨hsum', hcards', hover', hante', hacts', hcb', hsd', hact'⟩ :=
                end_hand_spec _ _ hstep
              refine ⟨?_, ?_, ?_, ?_, ?_⟩
              · simp [HandState.cards_dealt, hcards', hc]
              · intro hfalse
                rw [hover'] at hfalse
                simp at hfalse
              · intro hfalse _ _
                rw [hover'] at hfalse
                simp at hfalse
              · intro hfalse
                rw [hover'] at hfalse
                simp at hfalse
              · intro _
                rw [hsum']
                have hp := hpot hov
                have hd := debit_sum s.stack_deltas s.acting_pos s.current_bet
                show (debit s.stack_deltas s.acting_pos s.current_bet).1 +
                  (debit s.stack_deltas s.acting_pos s.current_bet).2 +
                  (s.pot + s.current_bet) = 0
                omega
          | raise =>
              have hcbr : s.current_bet ≠ 0 ∧ s.raises_made < s.max_raises := by
                by_cases h0 : s.current_bet = 0
                · simp [valid_actions, h0] at hmem
                · refine ⟨h0, ?_⟩
                  by_cases hr2 : s.raises_made < s.max_raises
                  · exact hr2
                  · simp [valid_actions, h0, hr2] at hmem
              simp only [handle_raise, hcbr.2, if_true] at hstep
              simp only [hov, Bool.false_eq_true, if_false, Prod.mk.injEq, and_true] at hstep
              subst hstep
              refine ⟨by simp [HandState.cards_dealt, hc], ?_, ?_, ?_, ?_⟩
              · intro _
                show s.acting_pos + 1 = ((s.actions ++ [Action.raise]).length : Fin 2)
                rw [List.length_append, List.length_singleton, fin2_cast_succ, ← hparity hov]
              · intro _ _ hcb
                exfalso
                have hcb2 : s.current_bet * 2 - s.current_bet = 0 := hcb
                have := hcbr.1
                omega
              · intro _
                have hp := hpot hov
                have hd := debit_sum s.stack_deltas s.acting_pos (s.current_bet * 2)
                show s.pot + s.current_bet * 2 =
                  -((debit s.stack_deltas s.acting_pos (s.current_bet * 2)).1 +
                    (debit s.stack_deltas s.acting_pos (s.current_bet * 2)).2)
                omega
              · intro hfalse
                exact absurd hfalse (by simp [hov])
          | fold =>
              simp only [handle_fold, if_true] at hstep
              obtain ⟨hsum', hcards', hover', hante', hacts', hcb', hsd', hact'⟩ :=
                end_hand_spec _ _ hstep
              refine ⟨?_, ?_, ?_, ?_, ?_⟩
              · simp [HandState.cards_dealt, hcards', hc]
              · intro hfalse
                rw [hover'] at hfalse
                simp at hfalse
              · intro hfalse _ _
                rw [hover'] at hfalse
                simp at hfalse
              · intro hfalse
                rw [hover'] at hfalse
                simp at hfalse
              · intro _
                rw [hsum']
                have hp := hpot hov
                show s.stack_deltas.1 + s.stack_deltas.2 + s.pot = 0
                omega
        · simp [process_action, hov, hdealt, hmem] at hstep

/-! ### C2: the pot/stack-delta accounting invariant -/

/-- C2: for every reachable hand state the pot equals the negative sum
of the two stack deltas while the hand is open; the pot-award line of
`_end_hand` adds exactly the pot to the winner and nothing to the other
player; and every terminal reachable hand state is zero-sum. -/
theorem claim2_zero_sum (s : HandState) (h : Reachable s) :
    (s.is_over = false → s.pot = -(s.stack_deltas.1 + s.stack_deltas.2)) ∧
    (s.is_over = true → s.stack_deltas.1 + s.stack_deltas.2 = 0) ∧
    (∀ t : HandState, ∀ w : Fin 2,
      getStack (award_pot t w).stack_deltas w = getStack t.stack_deltas w + t.pot) := by
  obtain ⟨-, -, -, h4, h5⟩ := reachable_inv h
  exact ⟨h4, h5, fun t w => getStack_credit t.stack_deltas w t.pot⟩

/-- C2, witness: along the concrete hand `w0 → w1 → w2` (check, check):
the open state `w1` satisfies the pot invariant and the terminal
showdown state `w2` is zero-sum. -/
theorem claim2_witness :
    (w1.pot = -(w1.stack_deltas.1 + w1.stack_deltas.2)) ∧
    (w2.stack_deltas.1 + w2.stack_deltas.2 = 0) := by
  have r0 : Reachable w0 := Reachable.deal 1 2 (2, 1)
  have r1 : Reachable w1 := Reachable.step Action.check r0 (by decide)
  have r2 : Reachable w2 := Reachable.step Action.check r1 (by decide)
  exact ⟨(claim2_zero_sum w1 r1).1 (by decide), (claim2_zero_sum w2 r2).2.1 (by decide)⟩

/-! ### C4: the CHECK transition -/

/-- C4: on a reachable open hand (with the positive ante the spec
requires of every `GameConfig`) where CHECK is legal, applying CHECK
ends the hand — via showdown — exactly when it is the second
consecutive CHECK (that is, the history so far is `[CHECK]`); otherwise
the hand stays open with the action recorded; in both cases control
passes to the other player and no error is raised. -/
theorem claim4_check (s : HandState) (h : Reachable s)
    (hov : s.is_over = false) (hante : 1 ≤ s.ante)
    (hcheck : Action.check ∈ valid_actions s) :
    ((process_action s Action.check).1.is_over = true ↔ s.actions = [Action.check]) ∧
    ((process_action s Action.check).1.is_over = true →
      (process_action s Action.check).1.showdown = true) ∧
    ((process_action s Action.check).1.is_over = false →
      (process_action s Action.check).1.actions = s.actions ++ [Action.check]) ∧
    (process_action s Action.check).1.acting_pos = s.acting_pos + 1 ∧
    (process_action s Action.check).2 = none := by
  obtain ⟨hdealt, hparity, hcb0, hpot, hsum⟩ := reachable_inv h
  obtain ⟨⟨c0, c1⟩, hc⟩ : ∃ p, s.cards = some p := by
    cases hcards : s.cards with
    | none => simp [HandState.cards_dealt, hcards] at hdealt
    | some p => exact ⟨p, rfl⟩
  have hcb : s.current_bet = 0 := by
    by_contra h0
    by_cases hr2 : s.raises_made < s.max_raises <;>
      simp [valid_actions, h0, hr2] at hcheck
  rcases hcb0 hov hante hcb with hacts | hacts
  · have hap : s.acting_pos = 0 := by
      rw [hparity hov, hacts]
      rfl
    have hap1 : ¬s.acting_pos = 1 := by
      rw [hap]
      decide
    simp only [process_action, hov, hdealt, hcheck, Bool.false_eq_true, if_false,
      Bool.true_eq_false, not_true_eq_false, not_false_eq_true, if_true,
      handle_check, hap1]
    refine ⟨?_, ?_, ?_, ?_, ?_⟩
    · simp [hacts, hov]
    · simp [hov]
    · intro _
      trivial
    · trivial
    · simp [hov]
  · have hap : s.acting_pos = 1 := by
      rw [hparity hov, hacts]
      rfl
    simp only [process_action, hov, hdealt, hcheck, Bool.false_eq_true, if_false,
      Bool.true_eq_false, not_true_eq_false, not_false_eq_true, if_true,
      handle_check, hap, end_hand, hc]
    refine ⟨?_, ?_, ?_, ?_, ?_⟩
    · simp [hacts, award_pot]
    · intro _
      simp [award_pot]
    · intro hfalse
      simp [award_pot] at hfalse
    · simp [award_pot, hap]
    · simp [award_pot]

/-- C4, witness: at the concrete reachable state `w1` (history
`[CHECK]`, in-position player to act) the second CHECK ends the hand in
a showdown with control passed. -/
theorem claim4_witness :
    ((process_action w1 Action.check).1.is_over = true ↔ w1.actions = [Action.check]) ∧
    ((process_action w1 Action.check).1.is_over = true →
      (process_action w1 Action.check).1.showdown = true) ∧
    ((process_action w1 Action.check).1.is_over = false →
      (process_action w1 Action.check).1.actions = w1.actions ++ [Action.check]) ∧
    (process_action w1 Action.check).1.acting_pos = w1.acting_pos + 1 ∧
    (process_action w1 Action.check).2 = none :=
  claim4_check w1
    (Reachable.step Action.check (Reachable.deal 1 2 (2, 1)) (by decide))
    (by decide) (by decide) (by decide)

/-! ### C5: the per-node CFR update -/

theorem sum_map_div (l : List Action) (f : Action → Rat) (c : Rat) :
    (l.map fun a => f a / c).sum = (l.map f).sum / c := by
  induction l with
  | nil => simp
  | cons hd tl ih => simp [ih, add_div]

theorem sum_map_const_rat (l : List Action) (c : Rat) :
    (l.map fun _ => c).sum = l.length * c := by
  induction l with
  | nil => simp
  | cons hd tl ih =>
      simp [ih]
      ring

theorem sum_map_add_rat (l : List Action) (f g : Action → Rat) :
    (l.map fun a => f a + g a).sum = (l.map f).sum + (l.map g).sum := by
  induction l with
  | nil => simp
  | cons hd tl ih =>
      simp [ih]
      ring

theorem sum_map_ite_mem (l m : List Action) (f g : Action → Rat)
    (hsub : ∀ a ∈ l, a ∈ m) :
    (l.map fun a => if a ∈ m then f a else g a).sum = (l.map f).sum := by
  induction l with
  | nil => simp
  | cons hd tl ih =>
      simp only [List.map_cons, List.sum_cons]
      rw [if_pos (hsub hd (by simp)), ih fun a ha => hsub a (by simp [ha])]

/-- A strategy returned by regret matching on a present regret table is
a probability distribution over the policy keys: the normalised branch
sums to `1` and so does the uniform fallback. -/
theorem get_strategy_sum_one (policy : Action → Rat) (acts : List Action)
    (rs ss : Action → Rat) (hne : acts ≠ []) :
    (acts.map (get_strategy policy acts ⟨some rs, some ss⟩)).sum = 1 := by
  unfold get_strategy
  dsimp only
  by_cases hpos : 0 < (acts.map fun a => max 0 (rs a)).sum
  · rw [if_pos hpos, sum_map_div]
    exact div_self (ne_of_gt hpos)
  · rw [if_neg hpos, sum_map_const_rat]
    have hlen : (acts.length : Rat) ≠ 0 := by
      have : acts.length ≠ 0 := fun h0 => hne (List.length_eq_zero.mp h0)
      exact_mod_cast this
    rw [mul_one_div, div_self hlen]

/-- One call to `update_regrets` updates exactly the regret entry of its
action. -/
theorem update_regrets_regretD (policy : Action → Rat) (acts : List Action)
    (t : CFRNodeTables) (action : Action) (regret : Rat) :
    (update_regrets policy acts t action regret).regretD =
      fun a => if a = action then t.regretD a + regret else t.regretD a := rfl

/-- One call to `update_regrets` adds one whole regret-matched strategy
vector to the strategy-sum entries of the policy keys. -/
theorem update_regrets_stratD (policy : Action → Rat) (acts : List Action)
    (t : CFRNodeTables) (action : Action) (regret : Rat) :
    (update_regrets policy acts t action regret).stratD =
      fun a =>
        if a ∈ acts then
          t.stratD a +
            get_strategy policy acts
              ⟨some fun x => if x = action then t.regretD x + regret else t.regretD x,
               some t.stratD⟩ a
        else t.stratD a := rfl

/-- Each `update_regrets` call grows the total strategy-sum mass over
the policy keys by exactly `1`. -/
theorem update_regrets_total (policy : Action → Rat) (acts : List Action)
    (t : CFRNodeTables) (action : Action) (regret : Rat) (hne : acts ≠ []) :
    (acts.map (update_regrets policy acts t action regret).stratD).sum =
      (acts.map t.stratD).sum + 1 := by
  rw [update_regrets_stratD]
  rw [sum_map_ite_mem acts acts _ _ fun a ha => ha]
  rw [sum_map_add_rat]
  rw [get_strategy_sum_one policy acts _ _ hne]

theorem regret_loop_total (policy : Action → Rat) (acts : List Action)
    (reach : Rat) (av : Action → Rat) (nv : Rat) (hne : acts ≠ []) :
    ∀ (l : List Action) (t : CFRNodeTables),
      (acts.map
        (l.foldl (fun t a => update_regrets policy acts t a (reach * (av a - nv))) t).stratD).sum =
      (acts.map t.stratD).sum + l.length := by
  intro l
  induction l with
  | nil =>
      intro t
      simp
  | cons hd tl ih =>
      intro t
      simp only [List.foldl_cons, List.length_cons]
      rw [ih, update_regrets_total policy acts t hd _ hne]
      push_cast
      ring

theorem regret_loop_regretD (policy : Action → Rat) (acts : List Action)
    (reach : Rat) (av : Action → Rat) (nv : Rat) :
    ∀ (l : List Action) (t : CFRNodeTables), l.Nodup →
      ∀ x,
        (l.foldl (fun t a => update_regrets policy acts t a (reach * (av a - nv))) t).regretD x =
          t.regretD x + (if x ∈ l then reach * (av x - nv) else 0) := by
  intro l
  induction l with
  | nil =>
      intro t _ x
      simp
  | cons hd tl ih =>
      intro t hnd x
      simp only [List.foldl_cons]
      rw [ih _ (List.nodup_cons.mp hnd).2]
      simp only [update_regrets_regretD]
      by_cases hx : x = hd
      · subst hx
        have hnotin : x ∉ tl := (List.nodup_cons.mp hnd).1
        simp [hnotin]
      · by_cases hmem : x ∈ tl <;> simp [hx, hmem]

/-- The policy entry of the C5 example node: two legal actions, uniform
probabilities. -/
def c5policy : Action → Rat := fun _ => 1 / 2

/-- The legal actions of the C5 example node. -/
def c5acts : List Action := [Action.call, Action.fold]

/-- The children values for the acting player in the C5 example:
CALL is worth `1`, FOLD is worth `-1`; the node aggregate value is `0`. -/
def c5av : Action → Rat := fun a => if a = Action.call then 1 else -1

/-- The strategy in force when the node is entered (regret table still
absent, so `get_strategy` returns the stored uniform policy). -/
def c5entry_strategy : Action → Rat := get_strategy c5policy c5acts ⟨none, none⟩

/-- The tables after the per-action update loop of `_cfr_recursive` runs
on the example node with both reach probabilities `1`. -/
def c5final : CFRNodeTables :=
  regret_update_phase 0 1 1 c5policy c5acts c5av 0 ⟨none, none⟩

/-- C5, counterexample: at the example node the current strategy gives
CALL probability `1/2`, so adding it "exactly once" would leave
`strategy_sum[CALL] = 1/2`; the source instead calls `update_regrets`
once per action and each call re-derives and adds a whole strategy
vector, leaving `strategy_sum[CALL] = 2`.  The regret increments
themselves match the claimed formula. -/
theorem claim5_counterexample :
    c5entry_strategy Action.call = 1 / 2 ∧
    c5final.stratD Action.call = 2 ∧
    (0 : Rat) + 1 / 2 ≠ 2 ∧
    c5final.regretD Action.call = 0 + 1 * ((1 : Rat) - 0) ∧
    c5final.regretD Action.fold = 0 + 1 * ((-1 : Rat) - 0) := by
  refine ⟨rfl, ?_, by norm_num, ?_, ?_⟩ <;>
    simp [c5final, c5policy, c5acts, c5av, regret_update_phase, update_regrets,
      get_strategy, CFRNodeTables.stratD, CFRNodeTables.regretD]
  all_goals norm_num

/-- C5, amended: per node visit the update adds, for each legal action,
opponent-reach × (action value − node value) to that action's
accumulated regret — exactly as claimed — but the current strategy is
accumulated into the strategy-sum table once PER LEGAL ACTION (a whole
regret-matched strategy vector per `update_regrets` call, re-derived
after each regret update), so the total strategy-sum mass grows by the
number of legal actions rather than by one. -/
theorem claim5_amended (player : Fin 2) (op_reach ip_reach : Rat)
    (policy : Action → Rat) (acts : List Action)
    (av : Action → Rat) (nv : Rat) (t : CFRNodeTables)
    (hnd : acts.Nodup) (hne : acts ≠ []) :
    (∀ a ∈ acts,
      (regret_update_phase player op_reach ip_reach policy acts av nv t).regretD a =
        t.regretD a + (if player = 0 then ip_reach else op_reach) * (av a - nv)) ∧
    (acts.map (regret_update_phase player op_reach ip_reach policy acts av nv t).stratD).sum =
      (acts.map t.stratD).sum + acts.length := by
  constructor
  · intro a ha
    rw [regret_update_phase]
    rw [regret_loop_regretD _ acts _ av nv acts t hnd a]
    rw [if_pos ha]
  · rw [regret_update_phase]
    rw [regret_loop_total _ acts _ av nv hne acts t]

/-- C5, witness: the amended statement evaluated on the concrete
example node. -/
theorem claim5_witness :
    (∀ a ∈ c5acts,
      (regret_update_phase 0 1 1 c5policy c5acts c5av 0 ⟨none, none⟩).regretD a =
        CFRNodeTables.regretD ⟨none, none⟩ a +
          (if (0 : Fin 2) = 0 then (1 : Rat) else 1) * (c5av a - 0)) ∧
    (c5acts.map
      (regret_update_phase 0 1 1 c5policy c5acts c5av 0 ⟨none, none⟩).stratD).sum =
      (c5acts.map (CFRNodeTables.stratD ⟨none, none⟩)).sum + c5acts.length :=
  claim5_amended 0 1 1 c5policy c5acts c5av 0 ⟨none, none⟩ (by decide) (by decide)

end OneCardLimit
